import Mathlib

/-!
Shallow embedding of `src/loc_counter.py` (fuyuzheju/LOC-counter): a
line-of-code counter that walks a directory tree, filters files by a fixed
extension table and fixed exclusion sets, counts lines per file, aggregates
per-extension statistics and prints a sorted report.

The file system is modelled as an immutable tree of named directories and
files; a file carries its (already decoded) text content and a `readable`
flag modelling whether `open` succeeds.  Output streams are modelled as
lists of printed lines (stdout and stderr separately).  Strings are
`List Char`; Python `str.lower` is modelled by `Char.toLower` (ASCII case
mapping — every recognized extension is ASCII).
-/

namespace LocCounter

/-- Characters of a file name, path, or printed message. -/
abbrev Name := List Char

/-- `CODE_EXTENSIONS` from loc_counter.py lines 13–25 (the set is modelled
as a list; only membership is ever used). -/
def CODE_EXTENSIONS : List Name :=
  ([".html", ".htm", ".css", ".scss", ".sass", ".less", ".styl",
    ".js", ".jsx", ".ts", ".tsx", ".cjs", ".mjs", ".vue", ".svelte", ".ejs", ".pug", ".hbs",
    ".py", ".java", ".c", ".h", ".cpp", ".hpp", ".cs", ".go", ".rs", ".php",
    ".rb", ".swift", ".kt", ".kts", ".dart", ".lua", ".groovy", ".r", ".m",
    ".ex", ".exs", ".erl", ".hrl", ".clj", ".cljs", ".cljc", ".ml", ".mli", ".nim",
    ".sh", ".fish", ".bat", ".ps1", ".make", ".mk", ".gradle", ".bazel", ".bzl", ".nix",
    ".json", ".xml", ".yaml", ".yml", ".toml", ".ini", ".cfg", ".conf", ".env",
    ".md", ".rst", ".adoc", ".asciidoc", ".tex",
    ".sql", ".log", ".csv", ".tsv",
    ".tscn", ".gd", ".ux",
    ".wasm", ".wat"] : List String).map String.data

/-- `EXCLUDE_DIRS` from loc_counter.py lines 27–31. -/
def EXCLUDE_DIRS : List Name :=
  (["__pycache__", "node_modules", "vendor", "build", "dist", "target", "out",
    ".git", ".svn", ".hg", ".vscode", ".idea", "env", "venv",
    "logs", "log", "tmp", "temp", "cache", ".cache"] : List String).map String.data

/-- `EXCLUDE_FILES` from loc_counter.py lines 33–36. -/
def EXCLUDE_FILES : List Name :=
  (["package-lock.json", "yarn.lock", "pnpm-lock.yaml", "composer.lock",
    ".DS_Store"] : List String).map String.data

/-- A file on disk: its base name, whether `open` succeeds on it, and its
decoded text content (the result of reading it with
`encoding=utf-8, errors=ignore`, newlines normalized to `\n`). -/
structure FileEntry where
  name : Name
  readable : Bool
  content : List Char
deriving DecidableEq, Repr

/-- A directory tree: a list of named subdirectories and a list of files,
in the order `os.scandir` (and hence `os.walk`) yields them. -/
inductive FSTree where
  | node : List (Name × FSTree) → List FileEntry → FSTree

/-- Index of the last occurrence of `c` in `s` (Python `str.rfind`),
`none` when absent. -/
def lastIdxOf (c : Char) : List Char → Option Nat
  | [] => none
  | a :: s =>
    match lastIdxOf c s with
    | some i => some (i + 1)
    | none => if a = c then some 0 else none

/-- `os.path.splitext(p)[1]` for POSIX paths: the suffix starting at the
last dot, provided that dot lies after the last path separator and some
character of the base name before it is not a dot (so names made of leading
dots only, such as `.env`, have no extension). -/
def splitext_ext (p : Name) : Name :=
  match lastIdxOf '.' p with
  | none => []
  | some di =>
    let fi : Nat :=
      match lastIdxOf '/' p with
      | none => 0
      | some si => si + 1
    if fi ≤ di ∧ ((p.drop fi).take (di - fi)).any (fun c => c ≠ '.') then
      p.drop di
    else []

/-- Python `str.lower` (ASCII case mapping suffices here: every member of
`CODE_EXTENSIONS` is ASCII). -/
def lowercase (s : Name) : Name := s.map Char.toLower

/-- The file filter of loc_counter.py lines 57–63: skip names in
`EXCLUDE_FILES`, then keep exactly the names whose lowercased extension is
in `CODE_EXTENSIONS`. -/
def keep_file (filename : Name) : Bool :=
  if EXCLUDE_FILES.contains filename then false
  else CODE_EXTENSIONS.contains (lowercase (splitext_ext filename))

/-- One entry of `files_to_scan`: the chain of subdirectory names from the
project root down to the file (outermost first), together with the file
itself.  The source stores the joined path string; since the tree is
immutable the model keeps the resolved entry and rebuilds the path with
`item_path`. -/
structure ScanItem where
  dirs : List Name
  entry : FileEntry
deriving DecidableEq

mutual
/-- The discovery loop of loc_counter.py lines 54–63 (`os.walk` topdown):
at each directory, emit the kept files, then descend into exactly the
subdirectories whose names are not in `EXCLUDE_DIRS`
(`dirs[:] = [d for d in dirs if d not in EXCLUDE_DIRS]` prunes before the
walk descends). -/
def files_to_scan_from (below : List Name) : FSTree → List ScanItem
  | .node ds fs =>
    (fs.filter (fun f => keep_file f.name)).map (fun f => ⟨below, f⟩)
      ++ files_to_scan_dirs below ds

/-- Descend into the (pruned) subdirectory list, in order.  The pruning
filter of line 55 is fused into the recursion; `files_to_scan_dirs_eq`
below states it equals filtering first and descending after. -/
def files_to_scan_dirs (below : List Name) : List (Name × FSTree) → List ScanItem
  | [] => []
  | d :: rest =>
    (if EXCLUDE_DIRS.contains d.1 then []
     else files_to_scan_from (below ++ [d.1]) d.2)
      ++ files_to_scan_dirs below rest
end

/-- `files_to_scan` as built by `analyze_project` lines 51–63. -/
def files_to_scan (t : FSTree) : List ScanItem := files_to_scan_from [] t

/-- Decompose decoded text into Python line records: each record ends at a
newline (kept, as Python line iteration keeps it) and a final unterminated
record is still one record.  `acc` holds the current record, reversed. -/
def splitLinesAux : List Char → List Char → List (List Char)
  | [], acc => if acc = [] then [] else [acc.reverse]
  | c :: cs, acc =>
    if c = '\n' then (c :: acc).reverse :: splitLinesAux cs []
    else splitLinesAux cs (c :: acc)

/-- The line records of a file's text, as iterated by `for _ in f`. -/
def splitLines (s : List Char) : List (List Char) := splitLinesAux s []

/-- The stderr warning printed by `count_lines_in_file` line 43 (the
source also appends the exception text after the path). -/
def read_warning (path : Name) : Name :=
  "警告: 无法读取文件 ".data ++ path

/-- `count_lines_in_file` (loc_counter.py lines 38–44): the file's line
count (`sum(1 for _ in f)`) together with the stderr lines printed; an
unreadable file yields 0 and one warning naming the path. -/
def count_lines_in_file (path : Name) (f : FileEntry) : Nat × List Name :=
  if f.readable then ((splitLines f.content).length, [])
  else (0, [read_warning path])

/-- `os.path.join(a, b)` for a relative component `b` on POSIX. -/
def joinPath (a b : Name) : Name :=
  if a = [] then b
  else if a.getLast? = some '/' then a ++ b
  else a ++ '/' :: b

/-- The full path of a scan item: the project path joined with each
subdirectory component (as `os.walk` builds its `root`), then the file
name (line 63). -/
def item_path (project_path : Name) (it : ScanItem) : Name :=
  joinPath (it.dirs.foldl joinPath project_path) it.entry.name

/-- The aggregation key of line 71: the lowercased extension of the full
path. -/
def item_tag (project_path : Name) (it : ScanItem) : Name :=
  lowercase (splitext_ext (item_path project_path it))

/-- One per-tag statistics record: the tag, its file count, its line
count.  `stats_by_lang` is this association list in insertion order
(Python dicts preserve it). -/
abbrev StatsList := List (Name × Nat × Nat)

/-- Lines 75–76: `stats_by_lang[ext][files] += 1` and
`[lines] += line_count`, with the defaultdict creating a zero record on
first touch (appended at the end, as dict insertion order does). -/
def update_stats (stats : StatsList) (tag : Name) (lc : Nat) : StatsList :=
  match stats with
  | [] => [(tag, 1, lc)]
  | (t, f, l) :: rest =>
    if t = tag then (t, f + 1, l + lc) :: rest
    else (t, f, l) :: update_stats rest tag lc

/-- Value of a tag in the stats map, `(0, 0)` when absent (the defaultdict
default). -/
def lookup_stats (stats : StatsList) (tag : Name) : Nat × Nat :=
  match stats with
  | [] => (0, 0)
  | (t, f, l) :: rest => if t = tag then (f, l) else lookup_stats rest tag

/-- Line 78: `sum(stats[files] for stats in stats_by_lang.values())`. -/
def total_files_of (stats : StatsList) : Nat :=
  (stats.map (fun e => e.2.1)).sum

/-- Line 79: `sum(stats[lines] for stats in stats_by_lang.values())`. -/
def total_lines_of (stats : StatsList) : Nat :=
  (stats.map (fun e => e.2.2)).sum

/-- Body of the analysis loop, lines 70–76: count the file's lines
(collecting any stderr warning) and bump its tag's record. -/
def analyze_step (project_path : Name) (acc : StatsList × List Name)
    (it : ScanItem) : StatsList × List Name :=
  let r := count_lines_in_file (item_path project_path it) it.entry
  (update_stats acc.1 (item_tag project_path it) r.1, acc.2 ++ r.2)

/-- Stdout line printed at loc_counter.py line 53. -/
def MSG_DISCOVER : Name := "正在发现文件...".data

/-- Stdout line printed at line 66 when no candidate file was found. -/
def MSG_NOTHING : Name := "在指定路径下没有找到可分析的代码文件。".data

/-- Stdout line printed at line 69 (`n` = number of candidate files). -/
def MSG_FOUND (n : Nat) : Name :=
  "发现 ".data ++ (toString n).data ++ " 个代码文件，开始分析...".data

/-- What `analyze_project` produces: its return triple
`(stats_by_lang, total_files, total_lines)` plus the stdout and stderr
lines the call prints.  (The `tqdm` progress bar degrades to a pass-through
and is not part of the streams.) -/
structure ScanResult where
  stats : StatsList
  total_files : Nat
  total_lines : Nat
  stdout_lines : List Name
  err_lines : List Name
deriving DecidableEq

/-- `analyze_project` (loc_counter.py lines 46–81). -/
def analyze_project (project_path : Name) (t : FSTree) : ScanResult :=
  let fts := files_to_scan t
  if fts = [] then
    ⟨[], 0, 0, [MSG_DISCOVER, MSG_NOTHING], []⟩
  else
    let p := fts.foldl (analyze_step project_path) ([], [])
    ⟨p.1, total_files_of p.1, total_lines_of p.1,
      [MSG_DISCOVER, MSG_FOUND fts.length], p.2⟩

/-- The table printed by `print_report`: the per-tag rows in print order
(tag, file count, line count), and the totals row. -/
structure Report where
  rows : StatsList
  totals_row : Nat × Nat
deriving DecidableEq

/-- `print_report` (lines 83–100): sort the items by line count descending
(`sorted` is stable, so ties keep insertion order — core `mergeSort` is
stable too), print one row per tag, then the totals row from the passed-in
grand totals. -/
def print_report (stats : StatsList) (total_files total_lines : Nat) :
    Report :=
  ⟨stats.mergeSort (fun a b => decide (b.2.2 ≤ a.2.2)),
   (total_files, total_lines)⟩

/-- Stderr line printed at line 111 (the source wraps the path in single
quotes). -/
def ERR_INVALID (path : Name) : Name :=
  "错误: 路径 ".data ++ path ++ " 不是一个有效的目录。".data

/-- Observable outcome of one run of `main`: process exit status, stdout
status lines, stderr lines, and the report table if one was printed. -/
structure MainOutcome where
  exit_code : Nat
  stdout_lines : List Name
  err_lines : List Name
  report : Option Report
deriving DecidableEq

/-- `main` (lines 103–117).  `is_dir` models `os.path.isdir(project_path)`
and `t` the directory's content when it is valid; when the check fails the
run stops with `sys.exit(1)` before any traversal, otherwise the analysis
runs and the report is printed only when `total_files > 0` (line 116). -/
def main (is_dir : Bool) (project_path : Name) (t : FSTree) : MainOutcome :=
  if is_dir then
    let r := analyze_project project_path t
    if 0 < r.total_files then
      ⟨0, r.stdout_lines, r.err_lines,
        some (print_report r.stats r.total_files r.total_lines)⟩
    else ⟨0, r.stdout_lines, r.err_lines, none⟩
  else ⟨1, [], [ERR_INVALID project_path], none⟩

/-! ### Walker lemmas -/

/-- Fusing the pruning filter into the descent (`files_to_scan_dirs`) is
the same as pruning the subdirectory list first (line 55) and then
descending into each survivor. -/
theorem files_to_scan_dirs_eq (below : List Name) (l : List (Name × FSTree)) :
    files_to_scan_dirs below l =
      (l.filter (fun d => !EXCLUDE_DIRS.contains d.1)).flatMap
        (fun d => files_to_scan_from (below ++ [d.1]) d.2) := by
  induction l with
  | nil => simp [files_to_scan_dirs]
  | cons d rest ih =>
    rw [files_to_scan_dirs, List.filter_cons]
    by_cases hd : d.1 ∈ EXCLUDE_DIRS <;> simp [hd, ih]

mutual
/-- Every item discovered below `below` passed the file filter, and its
directory chain extends `below` only by components outside
`EXCLUDE_DIRS`. -/
theorem mem_files_to_scan_from :
    ∀ (below : List Name) (t : FSTree) (it : ScanItem),
      it ∈ files_to_scan_from below t →
      keep_file it.entry.name = true ∧
        ∃ ds, it.dirs = below ++ ds ∧
          ∀ d ∈ ds, EXCLUDE_DIRS.contains d = false
  | below, .node ds fs, it, h => by
    rw [files_to_scan_from] at h
    rcases List.mem_append.mp h with h1 | h2
    · rcases List.mem_map.mp h1 with ⟨f, hf, rfl⟩
      exact ⟨(List.mem_filter.mp hf).2, [], by simp, by simp⟩
    · exact mem_files_to_scan_dirs below ds it h2

/-- As above, for the descent into a subdirectory list. -/
theorem mem_files_to_scan_dirs :
    ∀ (below : List Name) (l : List (Name × FSTree)) (it : ScanItem),
      it ∈ files_to_scan_dirs below l →
      keep_file it.entry.name = true ∧
        ∃ ds, it.dirs = below ++ ds ∧
          ∀ d ∈ ds, EXCLUDE_DIRS.contains d = false
  | below, [], it, h => by simp [files_to_scan_dirs] at h
  | below, d :: rest, it, h => by
    rw [files_to_scan_dirs] at h
    rcases List.mem_append.mp h with h1 | h2
    · by_cases hd : d.1 ∈ EXCLUDE_DIRS
      · simp [hd] at h1
      · rw [if_neg (by simp [hd])] at h1
        obtain ⟨hk, ds', hds', hall⟩ :=
          mem_files_to_scan_from (below ++ [d.1]) d.2 it h1
        refine ⟨hk, d.1 :: ds', by simp [hds'], ?_⟩
        intro x hx
        rcases List.mem_cons.mp hx with rfl | hx'
        · simp [hd]
        · exact hall x hx'
    · exact mem_files_to_scan_dirs below rest it h2
end

/-- Unpack `keep_file`: a kept name is not in `EXCLUDE_FILES` and its
lowercased extension is recognized. -/
theorem keep_file_spec {n : Name} (h : keep_file n = true) :
    EXCLUDE_FILES.contains n = false ∧
      CODE_EXTENSIONS.contains (lowercase (splitext_ext n)) = true := by
  by_cases hc : EXCLUDE_FILES.contains n
  · rw [keep_file, if_pos hc] at h
    exact absurd h (by simp)
  · rw [keep_file, if_neg hc] at h
    exact ⟨eq_false_of_ne_true hc, h⟩

/-- `lastIdxOf` finds nothing when the character is absent. -/
theorem lastIdxOf_eq_none {c : Char} {l : List Char} (h : c ∉ l) :
    lastIdxOf c l = none := by
  induction l with
  | nil => rfl
  | cons a s ih =>
    rw [List.mem_cons, not_or] at h
    rw [lastIdxOf, ih h.2]
    exact if_neg (fun heq => h.1 heq.symm)

/-- A name that is a single leading dot followed by dot-free characters
has no extension under `os.path.splitext`. -/
theorem splitext_ext_dotfile {rest : List Char} (h : ('.' : Char) ∉ rest) :
    splitext_ext ('.' :: rest) = [] := by
  have hdot : lastIdxOf '.' ('.' :: rest) = some 0 := by
    rw [lastIdxOf, lastIdxOf_eq_none h]
    simp
  rw [splitext_ext, hdot]
  rcases hsl : lastIdxOf '/' ('.' :: rest) with _ | si
  · simp
  · simp

/-! ### Concrete sample data for witnesses -/

/-- A recognized, readable Python file with two lines. -/
def sampleFile : FileEntry := ⟨"a.py".data, true, "x\ny\n".data⟩

/-- A recognized, readable JavaScript file with one unterminated line. -/
def sampleJs : FileEntry := ⟨"b.js".data, true, "q".data⟩

/-- A small tree: `a.py` at the root and `src/b.js` below it. -/
def sampleTree : FSTree :=
  .node [("src".data, .node [] [sampleJs])] [sampleFile]

/-! ### Claim theorems -/

/-- C2.  A file whose name is exactly a member of `EXCLUDE_FILES` is never
added to the candidate list (`files_to_scan`), even when its lowercased
extension is recognized: every candidate's name lies outside
`EXCLUDE_FILES`.  The aggregation loop (lines 70–76) folds over exactly
this list, so such a file contributes to no tag bucket. -/
theorem excluded_file_never_candidate (t : FSTree) (it : ScanItem)
    (h : it ∈ files_to_scan t) : it.entry.name ∉ EXCLUDE_FILES := by
  obtain ⟨hk, -⟩ := mem_files_to_scan_from [] t it h
  have hc := (keep_file_spec hk).1
  simpa using hc

/-- Witness for C2 at a concrete tree and candidate. -/
theorem excluded_file_never_candidate_witness :
    (⟨[], sampleFile⟩ : ScanItem) ∈ files_to_scan sampleTree ∧
      sampleFile.name ∉ EXCLUDE_FILES := by
  have hmem : (⟨[], sampleFile⟩ : ScanItem) ∈ files_to_scan sampleTree := by
    decide
  exact ⟨hmem, excluded_file_never_candidate sampleTree ⟨[], sampleFile⟩ hmem⟩

/-- C3.  A file beneath a subdirectory whose name is in `EXCLUDE_DIRS` is
never a candidate (every candidate's directory chain avoids
`EXCLUDE_DIRS` at every depth), and the traversal prunes excluded
subtrees before descending: the descent equals filtering the subdirectory
list first and only then recursing. -/
theorem excluded_dirs_pruned (t : FSTree) (it : ScanItem)
    (h : it ∈ files_to_scan t) :
    (∀ d ∈ it.dirs, d ∉ EXCLUDE_DIRS) ∧
      ∀ (below : List Name) (l : List (Name × FSTree)),
        files_to_scan_dirs below l =
          (l.filter (fun d => !EXCLUDE_DIRS.contains d.1)).flatMap
            (fun d => files_to_scan_from (below ++ [d.1]) d.2) := by
  refine ⟨?_, files_to_scan_dirs_eq⟩
  obtain ⟨-, ds, hds, hall⟩ := mem_files_to_scan_from [] t it h
  intro d hd
  have hc := hall d (by simpa [hds] using hd)
  simpa using hc

/-- Witness for C3 at a concrete tree and a nested candidate. -/
theorem excluded_dirs_pruned_witness :
    (⟨["src".data], sampleJs⟩ : ScanItem) ∈ files_to_scan sampleTree ∧
      (∀ d ∈ (["src".data] : List Name), d ∉ EXCLUDE_DIRS) := by
  have hmem : (⟨["src".data], sampleJs⟩ : ScanItem) ∈ files_to_scan sampleTree := by
    decide
  exact ⟨hmem, (excluded_dirs_pruned sampleTree ⟨["src".data], sampleJs⟩ hmem).1⟩

/-- C4.  A file whose lowercased extension is not in `CODE_EXTENSIONS` is
never a candidate: every candidate's lowercased extension is recognized.
The aggregation and the totals (lines 70–79) are computed from exactly the
candidate list, so such a file reaches no bucket and no total. -/
theorem unrecognized_ext_never_candidate (t : FSTree) (it : ScanItem)
    (h : it ∈ files_to_scan t) :
    lowercase (splitext_ext it.entry.name) ∈ CODE_EXTENSIONS := by
  obtain ⟨hk, -⟩ := mem_files_to_scan_from [] t it h
  have hc := (keep_file_spec hk).2
  simpa using hc

/-- Witness for C4 at a concrete tree and candidate. -/
theorem unrecognized_ext_never_candidate_witness :
    (⟨[], sampleFile⟩ : ScanItem) ∈ files_to_scan sampleTree ∧
      lowercase (splitext_ext sampleFile.name) ∈ CODE_EXTENSIONS := by
  have hmem : (⟨[], sampleFile⟩ : ScanItem) ∈ files_to_scan sampleTree := by
    decide
  exact ⟨hmem,
    unrecognized_ext_never_candidate sampleTree ⟨[], sampleFile⟩ hmem⟩

/-- C10.  A name that is a single leading dot with no further dot (such as
`.env`) yields the empty extension, which is not recognized, so no
candidate ever bears such a name — even though `.env` itself is listed in
`CODE_EXTENSIONS`; that entry matches only names such as `x.env` with a
component before the dot. -/
theorem leading_dot_name_never_counted (rest : List Char)
    (h : ('.' : Char) ∉ rest) :
    splitext_ext ('.' :: rest) = [] ∧
      ([] : Name) ∉ CODE_EXTENSIONS ∧
      (∀ (t : FSTree) (it : ScanItem), it ∈ files_to_scan t →
        it.entry.name ≠ '.' :: rest) ∧
      ".env".data ∈ CODE_EXTENSIONS ∧
      lowercase (splitext_ext "x.env".data) = ".env".data := by
  have hext := splitext_ext_dotfile h
  refine ⟨hext, by decide, ?_, by decide, by decide⟩
  intro t it hmem heq
  obtain ⟨hk, -⟩ := mem_files_to_scan_from [] t it hmem
  have h2 := (keep_file_spec hk).2
  rw [heq, hext] at h2
  simp [lowercase] at h2
  exact absurd h2 (by decide)

/-- Witness for C10 at the concrete name `.env`. -/
theorem leading_dot_name_never_counted_witness :
    splitext_ext ('.' :: "env".data) = [] ∧
      ([] : Name) ∉ CODE_EXTENSIONS ∧
      (∀ (t : FSTree) (it : ScanItem), it ∈ files_to_scan t →
        it.entry.name ≠ '.' :: "env".data) ∧
      ".env".data ∈ CODE_EXTENSIONS ∧
      lowercase (splitext_ext "x.env".data) = ".env".data :=
  leading_dot_name_never_counted "env".data (by decide)

/-! ### Line-counting lemmas -/

/-- Consuming one newline-terminated record: scanning `l ++ '\n' :: r`
emits one record (the pending `acc`, then `l`, then the newline) and
continues on `r` with an empty accumulator. -/
theorem splitLinesAux_newline {l : List Char} (hl : ('\n' : Char) ∉ l) :
    ∀ (acc r : List Char),
      splitLinesAux (l ++ '\n' :: r) acc =
        (acc.reverse ++ l ++ ['\n']) :: splitLinesAux r [] := by
  induction l with
  | nil => intro acc r; simp [splitLinesAux]
  | cons a l' ih =>
    rw [List.mem_cons, not_or] at hl
    intro acc r
    rw [List.cons_append, splitLinesAux,
      if_neg (fun heq => hl.1 heq.symm), ih hl.2]
    simp

/-- Scanning newline-free text yields the pending record extended by all
of it (and nothing when both are empty). -/
theorem splitLinesAux_no_newline {l : List Char} (hl : ('\n' : Char) ∉ l) :
    ∀ acc : List Char,
      splitLinesAux l acc =
        if acc.reverse ++ l = [] then [] else [acc.reverse ++ l] := by
  induction l with
  | nil => intro acc; rw [splitLinesAux]; by_cases h : acc = [] <;> simp [h]
  | cons a l' ih =>
    rw [List.mem_cons, not_or] at hl
    intro acc
    rw [splitLinesAux, if_neg (fun heq => hl.1 heq.symm), ih hl.2]
    simp

/-- A text made of `N` newline-terminated lines followed by a nonempty
unterminated trailing line has `N + 1` line records. -/
theorem splitLines_terminated_plus_trailing (ls : List (List Char))
    (trail : List Char) (h1 : ∀ l ∈ ls, ('\n' : Char) ∉ l)
    (h2 : trail ≠ []) (h3 : ('\n' : Char) ∉ trail) :
    (splitLines ((ls.map (fun l => l ++ ['\n'])).flatten ++ trail)).length =
      ls.length + 1 := by
  induction ls with
  | nil =>
    rw [splitLines]
    simp only [List.map_nil, List.flatten_nil, List.nil_append]
    rw [splitLinesAux_no_newline h3 [], if_neg (by simpa using h2)]
    rfl
  | cons l ls' ih =>
    have hl : ('\n' : Char) ∉ l := h1 l (List.mem_cons_self l ls')
    have h1' : ∀ x ∈ ls', ('\n' : Char) ∉ x :=
      fun x hx => h1 x (List.mem_cons_of_mem l hx)
    have harr : (List.map (fun x => x ++ ['\n']) (l :: ls')).flatten ++ trail =
        l ++ '\n' :: ((List.map (fun x => x ++ ['\n']) ls').flatten ++ trail) := by
      simp
    rw [splitLines, harr, splitLinesAux_newline hl]
    have := ih h1'
    rw [splitLines] at this
    simp [this]

/-- C5.  On a readable file `count_lines_in_file` returns the number of
line records of its text (always a natural number), and on a text of
exactly `N` newline-terminated lines followed by one unterminated trailing
line it returns `N + 1`. -/
theorem count_lines_records (path nm : Name) (c : List Char)
    (ls : List (List Char)) (trail : List Char)
    (h1 : ∀ l ∈ ls, ('\n' : Char) ∉ l) (h2 : trail ≠ [])
    (h3 : ('\n' : Char) ∉ trail) :
    (count_lines_in_file path ⟨nm, true, c⟩).1 = (splitLines c).length ∧
      (count_lines_in_file path
        ⟨nm, true, (ls.map (fun l => l ++ ['\n'])).flatten ++ trail⟩).1 =
        ls.length + 1 := by
  exact ⟨rfl, splitLines_terminated_plus_trailing ls trail h1 h2 h3⟩

/-- Witness for C5: two terminated lines plus an unterminated one give 3. -/
theorem count_lines_records_witness :
    (count_lines_in_file "p".data ⟨"t.py".data, true, "ab\nc\nxy".data⟩).1 =
        (splitLines "ab\nc\nxy".data).length ∧
      (count_lines_in_file "p".data
        ⟨"t.py".data, true,
          (([ "ab".data, "c".data ] : List (List Char)).map
            (fun l => l ++ ['\n'])).flatten ++ "xy".data⟩).1 =
        ([ "ab".data, "c".data ] : List (List Char)).length + 1 :=
  count_lines_records "p".data "t.py".data "ab\nc\nxy".data
    ["ab".data, "c".data] "xy".data (by decide) (by decide) (by decide)

/-- C1.  The totals `analyze_project` returns are the sums of the per-tag
file counts and line counts over its stats map (loc_counter.py lines
78–79), in both the empty-scan branch and the normal branch. -/
theorem totals_are_sums (project_path : Name) (t : FSTree) :
    (analyze_project project_path t).total_files =
        total_files_of (analyze_project project_path t).stats ∧
      (analyze_project project_path t).total_lines =
        total_lines_of (analyze_project project_path t).stats := by
  rw [analyze_project]
  by_cases h : files_to_scan t = [] <;>
    simp [h, total_files_of, total_lines_of]

/-! ### Aggregation lemmas -/

/-- `update_stats` bumps exactly the touched tag's record. -/
theorem lookup_update_stats (s : StatsList) (tag tag' : Name) (lc : Nat) :
    lookup_stats (update_stats s tag lc) tag' =
      if tag' = tag then
        ((lookup_stats s tag').1 + 1, (lookup_stats s tag').2 + lc)
      else lookup_stats s tag' := by
  induction s with
  | nil =>
    by_cases h : tag' = tag
    · simp [update_stats, lookup_stats, h]
    · simp [update_stats, lookup_stats, h, Ne.symm h]
  | cons e rest ih =>
    obtain ⟨t0, f0, l0⟩ := e
    by_cases h1 : t0 = tag
    · subst h1
      by_cases h2 : tag' = t0
      · subst h2
        simp [update_stats, lookup_stats]
      · simp [update_stats, lookup_stats, h2, Ne.symm h2]
    · by_cases h2 : t0 = tag'
      · subst h2
        have : ¬ t0 = tag := h1
        simp [update_stats, lookup_stats, h1, Ne.symm h1]
      · simp [update_stats, lookup_stats, h1, h2, ih]

/-- `update_stats` raises the file-count sum by one. -/
theorem total_files_update (s : StatsList) (tag : Name) (lc : Nat) :
    total_files_of (update_stats s tag lc) = total_files_of s + 1 := by
  induction s with
  | nil => simp [update_stats, total_files_of]
  | cons e rest ih =>
    obtain ⟨t0, f0, l0⟩ := e
    by_cases h : t0 = tag <;>
      simp [update_stats, total_files_of, h, total_files_of] at * <;> omega

/-- `update_stats` raises the line-count sum by the added count. -/
theorem total_lines_update (s : StatsList) (tag : Name) (lc : Nat) :
    total_lines_of (update_stats s tag lc) = total_lines_of s + lc := by
  induction s with
  | nil => simp [update_stats, total_lines_of]
  | cons e rest ih =>
    obtain ⟨t0, f0, l0⟩ := e
    by_cases h : t0 = tag <;>
      simp [update_stats, total_lines_of, h, total_lines_of] at * <;> omega

/-- What one item adds to a tag's record: one file when its tag matches,
plus its line count. -/
def item_count (project_path : Name) (it : ScanItem) : Nat :=
  (count_lines_in_file (item_path project_path it) it.entry).1

/-- The aggregation loop of loc_counter.py lines 70–76, run on an
arbitrary candidate list from the empty defaultdict: the resulting stats
association list. -/
def aggregate_stats (project_path : Name) (l : List ScanItem) : StatsList :=
  (l.foldl (analyze_step project_path) ([], [])).1

/-- Running the loop body over `l` adds, to each tag's record, the number
of items of that tag and the sum of their counted lines. -/
theorem foldl_analyze_step_lookup (project_path : Name) (l : List ScanItem) :
    ∀ (s : StatsList) (w : List Name) (tag : Name),
      lookup_stats ((l.foldl (analyze_step project_path) (s, w)).1) tag =
        ((lookup_stats s tag).1 +
           (l.filter (fun it => decide (item_tag project_path it = tag))).length,
         (lookup_stats s tag).2 +
           ((l.filter (fun it => decide (item_tag project_path it = tag))).map
             (item_count project_path)).sum) := by
  induction l with
  | nil => intro s w tag; simp
  | cons it rest ih =>
    intro s w tag
    rw [List.foldl_cons]
    have hstep : analyze_step project_path (s, w) it =
        (update_stats s (item_tag project_path it)
          (item_count project_path it),
         w ++ (count_lines_in_file (item_path project_path it) it.entry).2) :=
      rfl
    rw [hstep, ih, lookup_update_stats]
    by_cases h : tag = item_tag project_path it
    · rw [if_pos h]
      simp only [List.filter_cons, h]
      simp
      omega
    · rw [if_neg h]
      simp only [List.filter_cons]
      rw [if_neg (by simpa using fun heq => h heq.symm)]

/-- Running the loop body over `l` adds one file per item to the
file-count total and each item's counted lines to the line-count total. -/
theorem foldl_analyze_step_totals (project_path : Name) (l : List ScanItem) :
    ∀ (s : StatsList) (w : List Name),
      total_files_of ((l.foldl (analyze_step project_path) (s, w)).1) =
          total_files_of s + l.length ∧
        total_lines_of ((l.foldl (analyze_step project_path) (s, w)).1) =
          total_lines_of s + (l.map (item_count project_path)).sum := by
  induction l with
  | nil => intro s w; simp
  | cons it rest ih =>
    intro s w
    rw [List.foldl_cons]
    have hstep : analyze_step project_path (s, w) it =
        (update_stats s (item_tag project_path it)
          (item_count project_path it),
         w ++ (count_lines_in_file (item_path project_path it) it.entry).2) :=
      rfl
    rw [hstep]
    obtain ⟨hf, hl⟩ := ih (update_stats s (item_tag project_path it)
      (item_count project_path it))
      (w ++ (count_lines_in_file (item_path project_path it) it.entry).2)
    rw [hf, hl, total_files_update, total_lines_update]
    constructor
    · simp; omega
    · simp; omega

/-- Running the loop body over `l` appends one stderr warning per
unreadable item, naming its path, in traversal order. -/
theorem foldl_analyze_step_warnings (project_path : Name) (l : List ScanItem) :
    ∀ (s : StatsList) (w : List Name),
      (l.foldl (analyze_step project_path) (s, w)).2 =
        w ++ (l.filter (fun it => !it.entry.readable)).map
          (fun it => read_warning (item_path project_path it)) := by
  induction l with
  | nil => intro s w; simp
  | cons it rest ih =>
    intro s w
    rw [List.foldl_cons]
    cases hr : it.entry.readable <;>
      simp [analyze_step, count_lines_in_file, hr, ih, List.filter_cons]

/-- An item's counted lines: its record count when readable, `0` when
not; summed per tag this drops exactly the unreadable items. -/
theorem sum_counts_readable (project_path : Name) (tag : Name)
    (l : List ScanItem) :
    ((l.filter (fun it => decide (item_tag project_path it = tag))).map
        (item_count project_path)).sum =
      ((l.filter (fun it =>
          it.entry.readable && decide (item_tag project_path it = tag))).map
        (fun it => (splitLines it.entry.content).length)).sum := by
  induction l with
  | nil => rfl
  | cons it rest ih =>
    by_cases ht : item_tag project_path it = tag <;>
      cases hr : it.entry.readable <;>
        simp [List.filter_cons, ht, hr, item_count, count_lines_in_file, ih]

/-- An unreadable file in the sample data, for the C6 witness. -/
def badFile : FileEntry := ⟨"bad.py".data, false, []⟩

/-- A flat tree holding one readable and one unreadable Python file. -/
def mixedTree : FSTree := .node [] [sampleFile, badFile]

/-- C6.  One run of `analyze_project` prints exactly one stderr warning
per unreadable candidate file, naming its path, while
`count_lines_in_file` catches the failure and returns `(0, warning)`; the
stats still count every candidate of a tag (readable or not) in the file
count, and sum lines only over the readable ones — so an unreadable file
adds one file and zero lines to its bucket, and all other files are still
processed. -/
theorem unreadable_warn_and_still_counted (project_path : Name) (t : FSTree) :
    (analyze_project project_path t).err_lines =
        ((files_to_scan t).filter (fun it => !it.entry.readable)).map
          (fun it => read_warning (item_path project_path it)) ∧
      (∀ (f : FileEntry) (path : Name), f.readable = false →
        count_lines_in_file path f = (0, [read_warning path])) ∧
      ∀ tag, lookup_stats (analyze_project project_path t).stats tag =
        (((files_to_scan t).filter
            (fun it => decide (item_tag project_path it = tag))).length,
         (((files_to_scan t).filter (fun it =>
              it.entry.readable && decide (item_tag project_path it = tag))).map
            (fun it => (splitLines it.entry.content).length)).sum) := by
  refine ⟨?_, ?_, ?_⟩
  · rw [analyze_project]
    by_cases h : files_to_scan t = []
    · simp [h]
    · simp only [h, if_neg h, reduceIte]
      rw [foldl_analyze_step_warnings]
      simp
  · intro f path hf
    simp [count_lines_in_file, hf]
  · intro tag
    rw [analyze_project]
    by_cases h : files_to_scan t = []
    · simp [h, lookup_stats]
    · simp only [h, if_neg h, reduceIte]
      rw [foldl_analyze_step_lookup, sum_counts_readable]
      simp [lookup_stats]

/-- Witness for C6 at the concrete mixed tree: the warning list, the
caught failure, and the `.py` bucket of two files but only the readable
file's two lines. -/
theorem unreadable_warn_and_still_counted_witness :
    (analyze_project ".".data mixedTree).err_lines =
        ((files_to_scan mixedTree).filter (fun it => !it.entry.readable)).map
          (fun it => read_warning (item_path ".".data it)) ∧
      count_lines_in_file "p".data badFile = (0, [read_warning "p".data]) ∧
      lookup_stats (analyze_project ".".data mixedTree).stats ".py".data =
        (((files_to_scan mixedTree).filter
            (fun it => decide (item_tag ".".data it = ".py".data))).length,
         (((files_to_scan mixedTree).filter (fun it =>
              it.entry.readable &&
                decide (item_tag ".".data it = ".py".data))).map
            (fun it => (splitLines it.entry.content).length)).sum) := by
  have h := unreadable_warn_and_still_counted ".".data mixedTree
  exact ⟨h.1, h.2.1 badFile "p".data rfl, h.2.2 ".py".data⟩

/-- C7.  The aggregation loop is order-independent: running it on any
permutation of the candidate list yields the same per-tag mapping (every
tag looks up to the same record) and the same grand totals. -/
theorem aggregation_order_independent (project_path : Name)
    (l l' : List ScanItem) (h : l.Perm l') :
    (∀ tag, lookup_stats (aggregate_stats project_path l) tag =
        lookup_stats (aggregate_stats project_path l') tag) ∧
      total_files_of (aggregate_stats project_path l) =
        total_files_of (aggregate_stats project_path l') ∧
      total_lines_of (aggregate_stats project_path l) =
        total_lines_of (aggregate_stats project_path l') := by
  obtain ⟨hf, hl⟩ := foldl_analyze_step_totals project_path l [] []
  obtain ⟨hf', hl'⟩ := foldl_analyze_step_totals project_path l' [] []
  refine ⟨fun tag => ?_, ?_, ?_⟩
  · rw [aggregate_stats, aggregate_stats, foldl_analyze_step_lookup,
      foldl_analyze_step_lookup]
    have hlen := (h.filter
      (fun it => decide (item_tag project_path it = tag))).length_eq
    have hsum := ((h.filter
      (fun it => decide (item_tag project_path it = tag))).map
        (item_count project_path)).sum_eq
    rw [hlen, hsum]
  · rw [aggregate_stats, aggregate_stats, hf, hf', h.length_eq]
  · rw [aggregate_stats, aggregate_stats, hl, hl',
      (h.map (item_count project_path)).sum_eq]

/-- Root-level sample scan item. -/
def itemA : ScanItem := ⟨[], sampleFile⟩

/-- Nested sample scan item. -/
def itemB : ScanItem := ⟨["src".data], sampleJs⟩

/-- Witness for C7: swapping a two-item candidate list. -/
theorem aggregation_order_independent_witness :
    (∀ tag, lookup_stats (aggregate_stats ".".data [itemA, itemB]) tag =
        lookup_stats (aggregate_stats ".".data [itemB, itemA]) tag) ∧
      total_files_of (aggregate_stats ".".data [itemA, itemB]) =
        total_files_of (aggregate_stats ".".data [itemB, itemA]) ∧
      total_lines_of (aggregate_stats ".".data [itemA, itemB]) =
        total_lines_of (aggregate_stats ".".data [itemB, itemA]) :=
  aggregation_order_independent ".".data [itemA, itemB] [itemB, itemA]
    (List.Perm.swap itemB itemA [])

/-- C8 counterexample.  On a valid but empty directory the nothing-found
message is not the only stdout line: the discovery status line of
loc_counter.py line 53 precedes it, refuting "only the nothing-found
message is printed". -/
theorem nothing_found_not_only_output :
    ¬ (main true ".".data (FSTree.node [] [])).stdout_lines = [MSG_NOTHING] := by
  decide

/-- C8 (amended).  When the supplied path is not a directory, `main`
stops with exit status 1 before any traversal — its outcome is a constant
holding only the stderr error naming the path and no table; when the path
is valid it exits with status 0, and with zero eligible files the
nothing-found message is printed (preceded only by the discovery status
line), no table is printed, and the Reporter is not run. -/
theorem entry_point_exit_behavior (pp : Name) (t : FSTree) :
    main false pp t = ⟨1, [], [ERR_INVALID pp], none⟩ ∧
      (main true pp t).exit_code = 0 ∧
      (files_to_scan t = [] →
        main true pp t = ⟨0, [MSG_DISCOVER, MSG_NOTHING], [], none⟩) := by
  refine ⟨rfl, ?_, ?_⟩
  · rw [main]
    by_cases h0 : 0 < (analyze_project pp t).total_files <;> simp [h0]
  · intro h
    have ha : analyze_project pp t = ⟨[], 0, 0, [MSG_DISCOVER, MSG_NOTHING], []⟩ := by
      rw [analyze_project]; simp [h]
    rw [main]
    simp [ha]

/-- Witness for C8 (amended) at a concrete invalid run and a concrete
empty directory. -/
theorem entry_point_exit_behavior_witness :
    main false "nope".data sampleTree =
        ⟨1, [], [ERR_INVALID "nope".data], none⟩ ∧
      (main true ".".data (FSTree.node [] [])).exit_code = 0 ∧
      main true ".".data (FSTree.node [] []) =
        ⟨0, [MSG_DISCOVER, MSG_NOTHING], [], none⟩ := by
  have h1 := entry_point_exit_behavior "nope".data sampleTree
  have h2 := entry_point_exit_behavior ".".data (FSTree.node [] [])
  exact ⟨h1.1, h2.2.1, h2.2.2 rfl⟩

/-- C9.  The report holds exactly the per-tag records (each tag with its
file count and line count), ordered by line count descending — ties in
whatever order the stable sort leaves — and its totals row carries the
grand totals it was given. -/
theorem report_rows_sorted (stats : StatsList) (tf tl : Nat) :
    (print_report stats tf tl).rows.Perm stats ∧
      List.Sorted (fun a b : Name × Nat × Nat => b.2.2 ≤ a.2.2)
        (print_report stats tf tl).rows ∧
      (print_report stats tf tl).totals_row = (tf, tl) := by
  refine ⟨List.mergeSort_perm stats _, ?_, rfl⟩
  have hs : (stats.mergeSort (fun a b => decide (b.2.2 ≤ a.2.2))).Pairwise
      (fun a b => decide (b.2.2 ≤ a.2.2) = true) :=
    List.sorted_mergeSort
      (fun a b c hab hbc => by
        simp only [decide_eq_true_eq] at hab hbc ⊢
        omega)
      (fun a b => by
        simp only [Bool.or_eq_true, decide_eq_true_eq]
        omega)
      stats
  exact hs.imp (fun hab => of_decide_eq_true hab)

end LocCounter
